import Mathlib

/-!
Verification development for the WattWise power-usage tracker (`App.py`).

Shallow embedding conventions:
* Strings from the Python code are modelled as `List Char`; Python's
  `str.strip`, `str.split` and `str.replace` are modelled by executable
  functions `pyStrip`, `pySplit`, `pyReplace` below.
* Naive `datetime` values are modelled as microseconds since an arbitrary
  midnight epoch (`ℕ`); `timedelta.total_seconds()` becomes exact rational
  division by 10^6 (`elapsedSeconds`).  Python floats are idealised as
  rationals; the values written by the program are finite decimals, which
  the serialisation model (`pyFloatRender`, `parseFloat`) captures exactly.
* Each fallible parse returns `Option`.
-/

/-- Default whitespace characters stripped by Python's `str.strip()`
(ASCII subset; the file format only ever produces these). -/
def wsChar (c : Char) : Bool :=
  c = ' ' || c = '\t' || c = '\n' || c = '\r' || c = '\x0b' || c = '\x0c'

/-- Model of Python `str.strip()`: drop whitespace from both ends. -/
def pyStrip (l : List Char) : List Char :=
  ((l.dropWhile wsChar).reverse.dropWhile wsChar).reverse

/-- Seconds between two microsecond timestamps, as an exact rational
(model of `(a - b).total_seconds()` on naive datetimes). -/
def elapsedSeconds (now t : ℕ) : ℚ := ((now : ℚ) - (t : ℚ)) / 1000000

/-- The `Device` class of `App.py`: power rating in watts, on/off flag,
accumulated session seconds, saved units and the last turn-on timestamp. -/
structure Device where
  name : List Char
  power : ℚ
  is_on : Bool
  session_usage_seconds : ℚ
  saved_usage_units : ℚ
  last_on_time : Option ℕ
  deriving DecidableEq, Repr

/-- `Device.__init__(name, power)`. -/
def mkDevice (name : List Char) (power : ℚ) : Device :=
  ⟨name, power, false, 0, 0, none⟩

namespace Device

/-- `Device.toggle`, with `datetime.now()` passed in as `now`. -/
def toggle (now : ℕ) (d : Device) : Device :=
  if d.is_on then
    match d.last_on_time with
    | some t =>
        { d with is_on := false,
                 session_usage_seconds := d.session_usage_seconds + elapsedSeconds now t,
                 last_on_time := none }
    | none => { d with is_on := false }
  else
    { d with is_on := true, last_on_time := some now }

/-- `Device.update_session_usage`, with `datetime.now()` passed in as `now`. -/
def update_session_usage (now : ℕ) (d : Device) : Device :=
  if d.is_on then
    match d.last_on_time with
    | some t =>
        { d with session_usage_seconds := d.session_usage_seconds + elapsedSeconds now t,
                 last_on_time := some now }
    | none => d
  else d

/-- `Device.get_session_units`: `(power * session_usage_seconds) / (1000 * 3600)`. -/
def get_session_units (d : Device) : ℚ :=
  d.power * d.session_usage_seconds / (1000 * 3600)

/-- `Device.get_total_units`: `saved_usage_units + get_session_units()`. -/
def get_total_units (d : Device) : ℚ :=
  d.saved_usage_units + d.get_session_units

end Device

/-- The per-device body of `App._consolidate_session_usage`: refresh the
running session, fold the session energy into `saved_usage_units`, zero the
session counter. -/
def consolidate_device (now : ℕ) (d : Device) : Device :=
  let d1 :=
    if d.is_on then
      match d.last_on_time with
      | some t =>
          { d with session_usage_seconds := d.session_usage_seconds + elapsedSeconds now t,
                   last_on_time := some now }
      | none => d
    else d
  { d1 with saved_usage_units := d1.saved_usage_units + d1.get_session_units,
            session_usage_seconds := 0 }

/-- Energy of the elapsed-but-not-yet-recorded part of the running session:
what `update_session_usage` at time `now` would add to `total_units`. -/
def unrecordedSessionEnergy (now : ℕ) (d : Device) : ℚ :=
  if d.is_on then
    match d.last_on_time with
    | some t => d.power * elapsedSeconds now t / (1000 * 3600)
    | none => 0
  else 0

/-- Invariant claimed by the spec: `last_on_time` is set iff `is_on`. -/
def deviceInv (d : Device) : Prop := d.is_on = true ↔ d.last_on_time.isSome

instance (d : Device) : Decidable (deviceInv d) := by
  unfold deviceInv; infer_instance

/-- The session-accounting operations a device undergoes after creation. -/
inductive DeviceOp where
  | toggle (now : ℕ)
  | refresh (now : ℕ)
  | consolidate (now : ℕ)
  deriving DecidableEq, Repr

/-- Apply one operation. -/
def applyOp (d : Device) : DeviceOp → Device
  | .toggle now => d.toggle now
  | .refresh now => d.update_session_usage now
  | .consolidate now => consolidate_device now d

/-- Apply a sequence of operations, oldest first. -/
def applyOps (ops : List DeviceOp) (d : Device) : Device :=
  ops.foldl applyOp d

theorem deviceInv_toggle (now : ℕ) (d : Device) (h : deviceInv d) :
    deviceInv (d.toggle now) := by
  unfold Device.toggle deviceInv at *
  cases hon : d.is_on <;> cases hlt : d.last_on_time <;> simp [hon, hlt] at h ⊢

theorem deviceInv_update (now : ℕ) (d : Device) (h : deviceInv d) :
    deviceInv (d.update_session_usage now) := by
  unfold Device.update_session_usage deviceInv at *
  cases hon : d.is_on <;> cases hlt : d.last_on_time <;> simp [hon, hlt] at h ⊢

theorem deviceInv_consolidate (now : ℕ) (d : Device) (h : deviceInv d) :
    deviceInv (consolidate_device now d) := by
  unfold consolidate_device deviceInv at *
  cases hon : d.is_on <;> cases hlt : d.last_on_time <;>
    simp [hon, hlt, Device.get_session_units] at h ⊢

theorem deviceInv_mk (n : List Char) (p : ℚ) : deviceInv (mkDevice n p) := by
  simp [deviceInv, mkDevice]

theorem deviceInv_applyOp (d : Device) (op : DeviceOp) (h : deviceInv d) :
    deviceInv (applyOp d op) := by
  cases op with
  | toggle now => exact deviceInv_toggle now d h
  | refresh now => exact deviceInv_update now d h
  | consolidate now => exact deviceInv_consolidate now d h

theorem deviceInv_applyOps (ops : List DeviceOp) (d : Device) (h : deviceInv d) :
    deviceInv (applyOps ops d) := by
  induction ops generalizing d with
  | nil => exact h
  | cons op rest ih => exact ih _ (deviceInv_applyOp d op h)

/-! ### Model of Python `str.split` / `str.replace` -/

/-- Fuel-driven worker for `pySplit` (structural recursion so that concrete
instances reduce in the kernel).  With fuel at least the length of the
string it computes Python's `str.split(sep)` for a non-empty `sep`. -/
def splitFuel (sep : List Char) : ℕ → List Char → List (List Char)
  | 0, s => [s]
  | _ + 1, [] => [[]]
  | fuel + 1, c :: rest =>
    if sep.isPrefixOf (c :: rest) then
      [] :: splitFuel sep fuel (List.drop sep.length (c :: rest))
    else
      match splitFuel sep fuel rest with
      | [] => [[c]]
      | h :: t => (c :: h) :: t

/-- Model of Python `str.split(sep)` for a non-empty separator. -/
def pySplit (sep s : List Char) : List (List Char) :=
  splitFuel sep s.length s

/-- Model of Python `str.replace(old, new)` (replace every non-overlapping
occurrence, scanning left to right). -/
def pyReplace (s old new : List Char) : List Char :=
  List.intercalate new (pySplit old s)

theorem isPrefixOf_append_self (l t : List Char) : l.isPrefixOf (l ++ t) = true := by
  induction l with
  | nil => simp [List.isPrefixOf]
  | cons c cs ih => simp [List.isPrefixOf, ih]

theorem splitFuel_fuel_irrel (sep : List Char) (hsep : sep ≠ []) :
    ∀ fuel₁ fuel₂ s, s.length ≤ fuel₁ → s.length ≤ fuel₂ →
      splitFuel sep fuel₁ s = splitFuel sep fuel₂ s := by
  intro fuel₁
  induction fuel₁ with
  | zero =>
    intro fuel₂ s h1 _
    have hs : s = [] := List.length_eq_zero.mp (Nat.le_zero.mp h1)
    subst hs
    cases fuel₂ <;> rfl
  | succ f ih =>
    intro fuel₂ s h1 h2
    cases s with
    | nil => cases fuel₂ <;> rfl
    | cons c rest =>
      cases fuel₂ with
      | zero => simp at h2
      | succ f₂ =>
        have hr1 : rest.length ≤ f := by simp at h1; omega
        have hr2 : rest.length ≤ f₂ := by simp at h2; omega
        have hlen : (List.drop sep.length (c :: rest)).length ≤ rest.length := by
          cases sep with
          | nil => exact absurd rfl hsep
          | cons a as => simp only [List.length_drop, List.length_cons]; omega
        simp only [splitFuel]
        rw [ih f₂ (List.drop sep.length (c :: rest)) (le_trans hlen hr1)
              (le_trans hlen hr2),
            ih f₂ rest hr1 hr2]

/-- If the first separator character never occurs, the split is trivial. -/
theorem splitFuel_no_occurrence (c0 : Char) (sep' : List Char) :
    ∀ fuel s, s.length ≤ fuel → c0 ∉ s → splitFuel (c0 :: sep') fuel s = [s] := by
  intro fuel
  induction fuel with
  | zero => intro s _ _; rfl
  | succ f ih =>
    intro s hlen hmem
    cases s with
    | nil => rfl
    | cons c rest =>
      have hc : ¬(c0 = c) := fun h => hmem (h ▸ List.mem_cons_self c rest)
      have hp : (c0 :: sep').isPrefixOf (c :: rest) = false := by
        simp [List.isPrefixOf, hc]
      have hrest : rest.length ≤ f := by simp at hlen; omega
      simp only [splitFuel, hp, Bool.false_eq_true, if_false]
      rw [ih rest hrest (fun h => hmem (List.mem_cons_of_mem c h))]

theorem pySplit_no_occurrence (c0 : Char) (sep' s : List Char) (h : c0 ∉ s) :
    pySplit (c0 :: sep') s = [s] :=
  splitFuel_no_occurrence c0 sep' s.length s le_rfl h

theorem splitFuel_succ (sep : List Char) (fuel : ℕ) (c : Char) (rest : List Char) :
    splitFuel sep (fuel + 1) (c :: rest) =
      if sep.isPrefixOf (c :: rest) then
        [] :: splitFuel sep fuel (List.drop sep.length (c :: rest))
      else
        match splitFuel sep fuel rest with
        | [] => [[c]]
        | h :: t => (c :: h) :: t := rfl

/-- Splitting `a ++ sep ++ b` on a separator `sep = c0 :: c1 :: sep'` peels
off `a`, provided `c1` differs from `c0` and never occurs in `a` (this rules
out every occurrence of `sep` starting inside `a`, including occurrences
straddling the boundary). -/
theorem pySplit_append (c0 c1 : Char) (sep' a b : List Char)
    (hne : c0 ≠ c1) (ha : c1 ∉ a) :
    pySplit (c0 :: c1 :: sep') (a ++ (c0 :: c1 :: sep') ++ b) =
      a :: pySplit (c0 :: c1 :: sep') b := by
  induction a with
  | nil =>
    have hp : (c0 :: c1 :: sep').isPrefixOf (c0 :: c1 :: (sep' ++ b)) = true := by
      simp
    have hdrop : List.drop (c0 :: c1 :: sep').length (c0 :: c1 :: (sep' ++ b)) = b := by
      simp
    have hfi := splitFuel_fuel_irrel (c0 :: c1 :: sep') (by simp)
      (sep'.length + b.length + 1) b.length b (by omega) le_rfl
    have e1 : ([] : List Char) ++ (c0 :: c1 :: sep') ++ b = c0 :: c1 :: (sep' ++ b) := by
      simp
    have e2 : (c0 :: c1 :: (sep' ++ b)).length = (sep'.length + b.length + 1) + 1 := by
      simp only [List.length_cons, List.length_append]
    unfold pySplit
    rw [e1, e2, splitFuel_succ, if_pos hp, hdrop, hfi]
  | cons d a' iha =>
    have ha' : c1 ∉ a' := fun h => ha (List.mem_cons_of_mem d h)
    have hih := iha ha'
    have hp : (c0 :: c1 :: sep').isPrefixOf (d :: (a' ++ (c0 :: c1 :: sep') ++ b)) = false := by
      cases a' with
      | nil =>
        have h1 : (c1 == c0) = false := beq_eq_false_iff_ne.mpr (Ne.symm hne)
        simp only [List.nil_append, List.cons_append, List.isPrefixOf, h1]
        simp
      | cons e a'' =>
        have h1 : (c1 == e) = false :=
          beq_eq_false_iff_ne.mpr (fun h => ha (by simp [h]))
        simp only [List.cons_append, List.isPrefixOf, h1]
        simp
    have e1 : (d :: a') ++ (c0 :: c1 :: sep') ++ b =
        d :: (a' ++ (c0 :: c1 :: sep') ++ b) := by simp
    have e2 : (d :: (a' ++ (c0 :: c1 :: sep') ++ b)).length =
        (a' ++ (c0 :: c1 :: sep') ++ b).length + 1 := by
      simp only [List.length_cons]
    unfold pySplit at hih ⊢
    rw [e1, e2, splitFuel_succ, if_neg (by rw [hp]; exact Bool.false_ne_true), hih]

/-! ### Decimal digits -/

/-- The decimal digit characters. -/
def digitChar : ℕ → Char
  | 0 => '0' | 1 => '1' | 2 => '2' | 3 => '3' | 4 => '4'
  | 5 => '5' | 6 => '6' | 7 => '7' | 8 => '8' | _ => '9'

/-- Numeric value of a digit character. -/
def digitVal (c : Char) : ℕ := c.toNat - 48

/-- Fuel-driven base-10 digit expansion (most significant digit first). -/
def natDigitsAux : ℕ → ℕ → List Char
  | 0, n => [digitChar n]
  | fuel + 1, n =>
    if n < 10 then [digitChar n]
    else natDigitsAux fuel (n / 10) ++ [digitChar (n % 10)]

/-- Decimal digit string of a natural number (what `repr` prints). -/
def natDigits (n : ℕ) : List Char := natDigitsAux n n

/-- Value of a digit string (leading zeros allowed). -/
def digitsVal (l : List Char) : ℕ := l.foldl (fun a c => 10 * a + digitVal c) 0

theorem digitVal_digitChar (k : ℕ) (h : k < 10) : digitVal (digitChar k) = k := by
  interval_cases k <;> rfl

theorem isDigit_digitChar (k : ℕ) (h : k < 10) : (digitChar k).isDigit = true := by
  interval_cases k <;> rfl

theorem natDigitsAux_fuel_irrel :
    ∀ fuel₁ fuel₂ n, n ≤ fuel₁ → n ≤ fuel₂ → natDigitsAux fuel₁ n = natDigitsAux fuel₂ n := by
  intro fuel₁
  induction fuel₁ with
  | zero =>
    intro fuel₂ n h1 _
    have : n = 0 := Nat.le_zero.mp h1
    subst this
    cases fuel₂ <;> rfl
  | succ f ih =>
    intro fuel₂ n h1 h2
    by_cases hn : n < 10
    · cases fuel₂ with
      | zero =>
        have : n = 0 := Nat.le_zero.mp h2
        subst this; rfl
      | succ f₂ => simp [natDigitsAux, hn]
    · cases fuel₂ with
      | zero => omega
      | succ f₂ =>
        simp only [natDigitsAux, hn, if_false]
        rw [ih f₂ (n / 10) (by omega) (by omega)]

theorem digitsVal_append_digit (ds : List Char) (c : Char) :
    digitsVal (ds ++ [c]) = 10 * digitsVal ds + digitVal c := by
  unfold digitsVal
  rw [List.foldl_append]
  rfl

theorem digitsVal_natDigitsAux :
    ∀ fuel n, n ≤ fuel → digitsVal (natDigitsAux fuel n) = n := by
  intro fuel
  induction fuel with
  | zero =>
    intro n h
    have : n = 0 := Nat.le_zero.mp h
    subst this; rfl
  | succ f ih =>
    intro n h
    by_cases hn : n < 10
    · simp only [natDigitsAux, hn, if_true]
      show 10 * 0 + digitVal (digitChar n) = n
      rw [digitVal_digitChar n hn]
      omega
    · simp only [natDigitsAux, hn, if_false]
      rw [digitsVal_append_digit, ih (n / 10) (by omega),
        digitVal_digitChar (n % 10) (by omega)]
      omega

theorem digitsVal_natDigits (n : ℕ) : digitsVal (natDigits n) = n :=
  digitsVal_natDigitsAux n n le_rfl

theorem natDigitsAux_all_digits :
    ∀ fuel n, n ≤ fuel → ∀ c ∈ natDigitsAux fuel n, c.isDigit = true := by
  intro fuel
  induction fuel with
  | zero =>
    intro n h c hc
    have : n = 0 := Nat.le_zero.mp h
    subst this
    simp only [natDigitsAux, List.mem_singleton] at hc
    subst hc; rfl
  | succ f ih =>
    intro n h c hc
    by_cases hn : n < 10
    · simp only [natDigitsAux, hn, if_true, List.mem_singleton] at hc
      subst hc; exact isDigit_digitChar n hn
    · simp only [natDigitsAux, hn, if_false, List.mem_append, List.mem_singleton] at hc
      rcases hc with hc | hc
      · exact ih (n / 10) (by omega) c hc
      · subst hc; exact isDigit_digitChar (n % 10) (by omega)

theorem natDigits_all_digits (n : ℕ) : ∀ c ∈ natDigits n, c.isDigit = true :=
  natDigitsAux_all_digits n n le_rfl

theorem natDigitsAux_ne_nil : ∀ fuel n, natDigitsAux fuel n ≠ [] := by
  intro fuel n
  cases fuel with
  | zero => simp [natDigitsAux]
  | succ f =>
    by_cases hn : n < 10 <;> simp [natDigitsAux, hn]

theorem natDigits_ne_nil (n : ℕ) : natDigits n ≠ [] := natDigitsAux_ne_nil n n

theorem natDigitsAux_length_le :
    ∀ fuel n k, n ≤ fuel → n < 10 ^ k → 1 ≤ k → (natDigitsAux fuel n).length ≤ k := by
  intro fuel
  induction fuel with
  | zero =>
    intro n k h _ hk
    have : n = 0 := Nat.le_zero.mp h
    subst this
    simpa [natDigitsAux] using hk
  | succ f ih =>
    intro n k h hnk hk
    by_cases hn : n < 10
    · simpa [natDigitsAux, hn] using hk
    · have hk2 : 2 ≤ k := by
        by_contra hcon
        have : k = 1 := by omega
        subst this
        simp at hnk
        omega
      have hdiv : n / 10 < 10 ^ (k - 1) := by
        have h10 : n < 10 * 10 ^ (k - 1) := by
          have : 10 * 10 ^ (k - 1) = 10 ^ k := by
            rw [← pow_succ']
            congr 1
            omega
          omega
        exact Nat.div_lt_of_lt_mul (by omega)
      have := ih (n / 10) (k - 1) (by omega) hdiv (by omega)
      simp only [natDigitsAux, hn, if_false, List.length_append, List.length_singleton]
      omega

theorem natDigits_length_le (n k : ℕ) (h : n < 10 ^ k) (hk : 1 ≤ k) :
    (natDigits n).length ≤ k :=
  natDigitsAux_length_le n n k le_rfl h hk

theorem digitsVal_replicate_zero (z : ℕ) (ds : List Char) :
    digitsVal (List.replicate z '0' ++ ds) = digitsVal ds := by
  induction z with
  | zero => rfl
  | succ m ih =>
    show digitsVal ('0' :: (List.replicate m '0' ++ ds)) = digitsVal ds
    unfold digitsVal at ih ⊢
    simpa using ih

/-! ### Python float serialisation -/

/-- Model of Python `float(s)` restricted to the plain decimal literals the
program writes: optional sign, digits, optional single decimal point.  The
surrounding whitespace tolerance of `float` is modelled with `pyStrip`. -/
def parseUnsignedFloat (t : List Char) : Option ℚ :=
  match pySplit ['.'] t with
  | [ip] =>
    if ip ≠ [] ∧ ip.all Char.isDigit = true then some ((digitsVal ip : ℚ)) else none
  | [ip, fp] =>
    if (ip ≠ [] ∨ fp ≠ []) ∧ ip.all Char.isDigit = true ∧ fp.all Char.isDigit = true then
      some ((digitsVal ip : ℚ) + (digitsVal fp : ℚ) / 10 ^ fp.length)
    else none
  | _ => none

/-- Model of Python `float(s)` (decimal literals). -/
def parseFloat (s : List Char) : Option ℚ :=
  match pyStrip s with
  | [] => none
  | c :: rest =>
    if c = '-' then (parseUnsignedFloat rest).map (fun q => -q)
    else if c = '+' then parseUnsignedFloat rest
    else parseUnsignedFloat (c :: rest)

/-- Fractional digit block of the decimal rendering of `n / 10 ^ e`. -/
def fracDigits (n e : ℕ) : List Char :=
  if e = 0 then ['0']
  else List.replicate (e - (natDigits (n % 10 ^ e)).length) '0' ++ natDigits (n % 10 ^ e)

/-- Decimal rendering of the value `m / 10 ^ e` (model of Python's `str` of
a float: sign, integer digits, a point, fractional digits). -/
def pyFloatRender (m : ℤ) (e : ℕ) : List Char :=
  (if m < 0 then ['-'] else []) ++
    natDigits (m.natAbs / 10 ^ e) ++ '.' :: fracDigits m.natAbs e

/-- Number of times `p` divides `n` (0 for `p < 2` or `n = 0`). -/
def factorCountAux (p : ℕ) : ℕ → ℕ → ℕ
  | 0, _ => 0
  | fuel + 1, n => if 2 ≤ p ∧ n ≠ 0 ∧ n % p = 0 then factorCountAux p fuel (n / p) + 1 else 0

/-- Number of times `p` divides `n`. -/
def factorCount (p n : ℕ) : ℕ := factorCountAux p n n

/-- Decimal exponent sufficient for a denominator of the form `2^a * 5^b`. -/
def decExp (den : ℕ) : ℕ := max (factorCount 2 den) (factorCount 5 den)

/-- A rational that is exactly a finite decimal (as every Python float is);
stated via the concrete exponent `decExp` so that it is decidable. -/
def decimalRep (q : ℚ) : Prop := (q.den : ℤ) ∣ 10 ^ decExp q.den

instance (q : ℚ) : Decidable (decimalRep q) := by
  unfold decimalRep; infer_instance

/-- Decimal rendering of a finite-decimal rational (model of the f-string
interpolation of a float in `App.py`). -/
def renderFloat (q : ℚ) : List Char :=
  pyFloatRender (q.num * 10 ^ decExp q.den / (q.den : ℤ)) (decExp q.den)

theorem pySplit_single_append (c : Char) (a b : List Char) (ha : c ∉ a) :
    pySplit [c] (a ++ c :: b) = a :: pySplit [c] b := by
  induction a with
  | nil =>
    have hp : [c].isPrefixOf (c :: b) = true := by simp [List.isPrefixOf]
    unfold pySplit
    simp only [List.nil_append, List.length_cons]
    rw [splitFuel_succ, if_pos hp]
    rfl
  | cons d a' iha =>
    have ha' : c ∉ a' := fun h => ha (List.mem_cons_of_mem d h)
    have hd : c ≠ d := fun h => ha (by simp [h])
    have hp : [c].isPrefixOf (d :: (a' ++ c :: b)) = false := by
      simp [List.isPrefixOf, beq_eq_false_iff_ne.mpr hd]
    have hih := iha ha'
    unfold pySplit at hih ⊢
    simp only [List.cons_append, List.length_cons]
    rw [splitFuel_succ, if_neg (by rw [hp]; exact Bool.false_ne_true), hih]

/-! ### `pyStrip` lemmas -/

theorem pyStrip_self_of (l : List Char)
    (hh : ∀ c, l.head? = some c → wsChar c = false)
    (hl : ∀ c, l.getLast? = some c → wsChar c = false) :
    pyStrip l = l := by
  cases l with
  | nil => rfl
  | cons c t =>
    have h1 : (c :: t).dropWhile wsChar = c :: t := by
      rw [List.dropWhile_cons, if_neg]
      rw [hh c rfl]
      exact Bool.false_ne_true
    unfold pyStrip
    rw [h1]
    cases hr : (c :: t).reverse with
    | nil => simp at hr
    | cons d u =>
      have hd : wsChar d = false := by
        apply hl
        rw [← List.head?_reverse, hr]
        rfl
      rw [List.dropWhile_cons, if_neg (by rw [hd]; exact Bool.false_ne_true), ← hr,
        List.reverse_reverse]

theorem head_not_ws_of_pyStrip_self (l : List Char) (hself : pyStrip l = l) :
    ∀ c, l.head? = some c → wsChar c = false := by
  intro c hc
  cases l with
  | nil => simp at hc
  | cons c' t =>
    have hcc : c' = c := by simpa using hc
    subst hcc
    by_contra hws
    have hws' : wsChar c' = true := by
      cases h : wsChar c' with
      | false => exact absurd h hws
      | true => rfl
    have hdrop : (c' :: t).dropWhile wsChar = t.dropWhile wsChar := by
      rw [List.dropWhile_cons, if_pos hws']
    have hlen : (pyStrip (c' :: t)).length < (c' :: t).length := by
      unfold pyStrip
      rw [hdrop]
      have h2 := (List.dropWhile_suffix (l := t) wsChar).length_le
      have h3 := (List.dropWhile_suffix (l := (t.dropWhile wsChar).reverse) wsChar).length_le
      simp only [List.length_reverse] at h3 ⊢
      simp only [List.length_cons]
      omega
    rw [hself] at hlen
    omega

/-! ### Float round-trip -/

theorem not_mem_digits_dot (n : ℕ) : '.' ∉ natDigits n := by
  intro h
  have := natDigits_all_digits n '.' h
  exact absurd this (by decide)

theorem not_mem_fracDigits_dot (n e : ℕ) : '.' ∉ fracDigits n e := by
  unfold fracDigits
  by_cases he : e = 0
  · simp [he]
  · simp only [he, if_false, List.mem_append, List.mem_replicate]
    rintro (⟨-, h⟩ | h)
    · exact absurd h (by decide)
    · exact not_mem_digits_dot _ h

theorem fracDigits_all_digits (n e : ℕ) : ∀ c ∈ fracDigits n e, c.isDigit = true := by
  intro c hc
  unfold fracDigits at hc
  by_cases he : e = 0
  · simp only [he, if_true, List.mem_singleton] at hc
    subst hc; rfl
  · simp only [he, if_false, List.mem_append, List.mem_replicate] at hc
    rcases hc with ⟨-, h⟩ | h
    · subst h; rfl
    · exact natDigits_all_digits _ c h

theorem fracDigits_ne_nil (n e : ℕ) : fracDigits n e ≠ [] := by
  unfold fracDigits
  by_cases he : e = 0
  · simp [he]
  · simp [he, natDigits_ne_nil]

theorem fracDigits_length (n e : ℕ) (he : 1 ≤ e) : (fracDigits n e).length = e := by
  unfold fracDigits
  have h0 : ¬(e = 0) := by omega
  have hlt : n % 10 ^ e < 10 ^ e := Nat.mod_lt _ (by positivity)
  have hle := natDigits_length_le (n % 10 ^ e) e hlt he
  simp only [h0, if_false, List.length_append, List.length_replicate]
  omega

theorem digitsVal_fracDigits (n e : ℕ) (he : 1 ≤ e) :
    digitsVal (fracDigits n e) = n % 10 ^ e := by
  unfold fracDigits
  have h0 : ¬(e = 0) := by omega
  simp only [h0, if_false]
  rw [digitsVal_replicate_zero, digitsVal_natDigits]

theorem parseUnsignedFloat_render (n e : ℕ) :
    parseUnsignedFloat (natDigits (n / 10 ^ e) ++ '.' :: fracDigits n e) =
      some ((n : ℚ) / 10 ^ e) := by
  have hsplit : pySplit ['.'] (natDigits (n / 10 ^ e) ++ '.' :: fracDigits n e) =
      [natDigits (n / 10 ^ e), fracDigits n e] := by
    rw [pySplit_single_append '.' _ _ (not_mem_digits_dot _),
      pySplit_no_occurrence '.' [] _ (not_mem_fracDigits_dot n e)]
  unfold parseUnsignedFloat
  rw [hsplit]
  have hcond : (natDigits (n / 10 ^ e) ≠ [] ∨ fracDigits n e ≠ []) ∧
      (natDigits (n / 10 ^ e)).all Char.isDigit = true ∧
      (fracDigits n e).all Char.isDigit = true := by
    refine ⟨Or.inl (natDigits_ne_nil _), ?_, ?_⟩
    · exact List.all_eq_true.mpr (natDigits_all_digits _)
    · exact List.all_eq_true.mpr (fracDigits_all_digits n e)
  show (if (natDigits (n / 10 ^ e) ≠ [] ∨ fracDigits n e ≠ []) ∧
      (natDigits (n / 10 ^ e)).all Char.isDigit = true ∧
      (fracDigits n e).all Char.isDigit = true then
    some ((digitsVal (natDigits (n / 10 ^ e)) : ℚ) +
      (digitsVal (fracDigits n e) : ℚ) / 10 ^ (fracDigits n e).length)
  else none) = some ((n : ℚ) / 10 ^ e)
  rw [if_pos hcond]
  congr 1
  by_cases he : e = 0
  · subst he
    simp only [pow_zero, Nat.div_one]
    rw [digitsVal_natDigits]
    show (n : ℚ) + (digitsVal ['0'] : ℚ) / 10 ^ ((['0'] : List Char).length) = n / 1
    norm_num
    rfl
  · have he1 : 1 ≤ e := by omega
    rw [digitsVal_natDigits, digitsVal_fracDigits n e he1, fracDigits_length n e he1]
    have hmod := Nat.div_add_mod n (10 ^ e)
    have h10 : ((10 : ℚ)) ^ e ≠ 0 := by positivity
    field_simp
    have : ((10 ^ e * (n / 10 ^ e) + n % 10 ^ e : ℕ) : ℚ) = (n : ℚ) := by
      rw [hmod]
    push_cast at this
    linarith

theorem pyFloatRender_chars (m : ℤ) (e : ℕ) :
    ∀ c ∈ pyFloatRender m e, c.isDigit = true ∨ c = '.' ∨ c = '-' := by
  intro c hc
  unfold pyFloatRender at hc
  simp only [List.mem_append, List.mem_cons] at hc
  rcases hc with (hc | hc) | hc | hc
  · by_cases hm : m < 0
    · simp only [hm, if_true, List.mem_singleton] at hc
      exact Or.inr (Or.inr hc)
    · simp [hm] at hc
  · exact Or.inl (natDigits_all_digits _ c hc)
  · exact Or.inr (Or.inl hc)
  · exact Or.inl (fracDigits_all_digits _ _ c hc)

theorem wsChar_eq_false_of_isDigit (c : Char) (h : c.isDigit = true) :
    wsChar c = false := by
  cases hw : wsChar c with
  | false => rfl
  | true =>
    exfalso
    have h6 : ((((c = ' ' ∨ c = '\t') ∨ c = '\n') ∨ c = '\r') ∨ c = '\x0b') ∨ c = '\x0c' := by
      simpa [wsChar] using hw
    rcases h6 with ((((h' | h') | h') | h') | h') | h' <;> subst h' <;> exact absurd h (by decide)

theorem pyStrip_of_all_not_ws (l : List Char) (h : ∀ c ∈ l, wsChar c = false) :
    pyStrip l = l := by
  apply pyStrip_self_of
  · intro c hc
    apply h
    cases l with
    | nil => simp at hc
    | cons d t =>
      have : d = c := by simpa using hc
      subst this
      exact List.mem_cons_self d t
  · intro c hc
    apply h
    rw [← List.head?_reverse] at hc
    have : c ∈ l.reverse := by
      cases hr : l.reverse with
      | nil => rw [hr] at hc; simp at hc
      | cons d t =>
        rw [hr] at hc
        have : d = c := by simpa using hc
        subst this
        exact List.mem_cons_self d t
    simpa using this

theorem pyFloatRender_not_ws (m : ℤ) (e : ℕ) :
    ∀ c ∈ pyFloatRender m e, wsChar c = false := by
  intro c hc
  rcases pyFloatRender_chars m e c hc with h | h | h
  · exact wsChar_eq_false_of_isDigit c h
  · subst h; rfl
  · subst h; rfl

theorem parseFloat_pyFloatRender (m : ℤ) (e : ℕ) :
    parseFloat (pyFloatRender m e) = some ((m : ℚ) / 10 ^ e) := by
  have hstrip : pyStrip (pyFloatRender m e) = pyFloatRender m e :=
    pyStrip_of_all_not_ws _ (pyFloatRender_not_ws m e)
  by_cases hm : m < 0
  · have hrender : pyFloatRender m e =
        '-' :: (natDigits (m.natAbs / 10 ^ e) ++ '.' :: fracDigits m.natAbs e) := by
      unfold pyFloatRender
      rw [if_pos hm]
      rfl
    have habs : ((m.natAbs : ℚ)) = -(m : ℚ) := by
      rw [Int.cast_natAbs]
      push_cast
      exact abs_of_neg (by exact_mod_cast hm)
    unfold parseFloat
    rw [hstrip, hrender]
    simp only [if_pos rfl]
    rw [parseUnsignedFloat_render]
    show some (-((m.natAbs : ℚ) / 10 ^ e)) = some ((m : ℚ) / 10 ^ e)
    rw [habs]
    congr 1
    ring
  · have hrender : pyFloatRender m e =
        natDigits (m.natAbs / 10 ^ e) ++ '.' :: fracDigits m.natAbs e := by
      unfold pyFloatRender
      rw [if_neg hm]
      rfl
    cases hA : natDigits (m.natAbs / 10 ^ e) with
    | nil => exact absurd hA (natDigits_ne_nil _)
    | cons c rest =>
      have hcdig : c.isDigit = true := by
        apply natDigits_all_digits (m.natAbs / 10 ^ e)
        rw [hA]
        exact List.mem_cons_self c rest
      have hc1 : ¬(c = '-') := fun h => by subst h; exact absurd hcdig (by decide)
      have hc2 : ¬(c = '+') := fun h => by subst h; exact absurd hcdig (by decide)
      unfold parseFloat
      rw [hstrip, hrender, hA]
      simp only [List.cons_append, if_neg hc1, if_neg hc2]
      rw [← List.cons_append, ← hA, parseUnsignedFloat_render]
      have habs : ((m.natAbs : ℚ)) = (m : ℚ) := by
        rw [Int.cast_natAbs]
        push_cast
        exact abs_of_nonneg (by exact_mod_cast not_lt.mp hm)
      rw [habs]

theorem parseFloat_renderFloat (q : ℚ) (h : decimalRep q) :
    parseFloat (renderFloat q) = some q := by
  unfold renderFloat
  rw [parseFloat_pyFloatRender]
  congr 1
  obtain ⟨c, hc⟩ := h
  have hden : (q.den : ℤ) ≠ 0 := by
    exact_mod_cast q.den_nz
  have hc0 : c ≠ 0 := by
    intro h0
    rw [h0, mul_zero] at hc
    exact absurd hc (by positivity)
  have hm : q.num * 10 ^ decExp q.den / (q.den : ℤ) = q.num * c := by
    rw [hc, show q.num * ((q.den : ℤ) * c) = (q.den : ℤ) * (q.num * c) by ring]
    exact Int.mul_ediv_cancel_left _ hden
  rw [hm]
  have hcast : ((10 : ℚ)) ^ decExp q.den = (q.den : ℚ) * (c : ℚ) := by
    exact_mod_cast congrArg (fun z : ℤ => (z : ℚ)) hc
  push_cast
  rw [hcast, mul_div_mul_right _ _ (by exact_mod_cast hc0)]
  exact Rat.num_div_den q

/-! ### Persistence: the two-section data file -/

/-- The literal section marker `## DEVICES ##`. -/
def devicesMarker : List Char := "## DEVICES ##".toList

/-- The literal section marker `## LOGS ##`. -/
def logsMarker : List Char := "## LOGS ##".toList

/-- One summary line: `f"{device.name} ({device.power}W) | {device.saved_usage_units}"`. -/
def device_line (d : Device) : List Char :=
  d.name ++ ' ' :: '(' ::
    (renderFloat d.power ++ 'W' :: ')' :: ' ' :: '|' :: ' ' :: renderFloat d.saved_usage_units)

/-- The parsing of a single stripped summary line inside `App.load_state`:
`info | usage` split, `name (power` split, `W)` split, two float parses;
any failure drops the line. -/
def parse_device_line (stripped : List Char) : Option Device :=
  match pySplit [' ', '|', ' '] stripped with
  | [info, usage] =>
    match pySplit [' ', '('] info with
    | [namePart, powerPart] =>
      match parseFloat ((pySplit ['W', ')'] powerPart).headD []), parseFloat usage with
      | some p, some s =>
        some { name := pyStrip namePart, power := p, is_on := false,
               session_usage_seconds := 0, saved_usage_units := s, last_on_time := none }
      | _, _ => none
    | _ => none
  | _ => none

/-- The device-section scan of `App.load_state` (the `## LOGS ##` marker
acts as a `break`). -/
def load_state_aux : Bool → List (List Char) → List Device
  | _, [] => []
  | flag, line :: rest =>
    let stripped := pyStrip line
    if stripped = [] then load_state_aux flag rest
    else if stripped = devicesMarker then load_state_aux true rest
    else if stripped = logsMarker then []
    else if flag then
      match parse_device_line stripped with
      | some d => d :: load_state_aux flag rest
      | none => load_state_aux flag rest
    else load_state_aux flag rest

/-- `App.load_state`, restricted to its pure parsing of the device section. -/
def load_state_devices (lines : List (List Char)) : List Device :=
  load_state_aux false lines

/-- The log-recovery scan at the top of `App.save_state`: collect every line
after the first `## LOGS ##` marker, skipping any further marker lines. -/
def read_logs_aux : Bool → List (List Char) → List (List Char)
  | _, [] => []
  | flag, line :: rest =>
    if pyStrip line = logsMarker then read_logs_aux true rest
    else if flag then line :: read_logs_aux flag rest
    else read_logs_aux flag rest

/-- `App.save_state`: re-read the current file's log block, then rewrite the
file as summary block, blank line, `## LOGS ##`, preserved logs.  Files are
modelled as lists of lines (without trailing newlines). -/
def save_state (devices : List Device) (file : List (List Char)) : List (List Char) :=
  devicesMarker :: devices.map device_line ++ [[], logsMarker] ++ read_logs_aux false file

/-- The log block in the sense of the claims: the lines following the first
line that strips to `## LOGS ##` (`none` when there is no marker). -/
def logBlockAfter : List (List Char) → Option (List (List Char))
  | [] => none
  | line :: rest => if pyStrip line = logsMarker then some rest else logBlockAfter rest

/-- The side conditions on a device name under which the summary line
round-trips: non-empty, strip-invariant, and free of `'('` and `'|'`. -/
def goodName (name : List Char) : Prop :=
  name ≠ [] ∧ pyStrip name = name ∧ '(' ∉ name ∧ '|' ∉ name

instance (name : List Char) : Decidable (goodName name) := by
  unfold goodName; infer_instance

theorem renderFloat_chars (q : ℚ) :
    ∀ c ∈ renderFloat q, c.isDigit = true ∨ c = '.' ∨ c = '-' :=
  pyFloatRender_chars _ _

theorem renderFloat_no_special (q : ℚ) :
    ∀ c ∈ renderFloat q,
      wsChar c = false ∧ c ≠ ' ' ∧ c ≠ '|' ∧ c ≠ '(' ∧ c ≠ ')' ∧ c ≠ 'W' := by
  intro c hc
  rcases renderFloat_chars q c hc with h | h | h
  · refine ⟨wsChar_eq_false_of_isDigit c h, ?_, ?_, ?_, ?_, ?_⟩ <;>
      exact fun he => by subst he; exact absurd h (by decide)
  · subst h; exact ⟨rfl, by decide, by decide, by decide, by decide, by decide⟩
  · subst h; exact ⟨rfl, by decide, by decide, by decide, by decide, by decide⟩

theorem renderFloat_ne_nil (q : ℚ) : renderFloat q ≠ [] := by
  unfold renderFloat pyFloatRender
  intro h
  rcases List.append_eq_nil.mp h with ⟨-, h2⟩
  simp at h2

theorem pyStrip_device_line (d : Device) (h : goodName d.name) :
    pyStrip (device_line d) = device_line d := by
  obtain ⟨hne, hstrip, -, -⟩ := h
  apply pyStrip_self_of
  · intro c hc
    rw [device_line, List.head?_append_of_ne_nil d.name hne] at hc
    exact head_not_ws_of_pyStrip_self d.name hstrip c hc
  · intro c hc
    rw [device_line] at hc
    rw [List.getLast?_append_of_ne_nil _ (by simp)] at hc
    rw [show (' ' :: '(' :: (renderFloat d.power ++
          'W' :: ')' :: ' ' :: '|' :: ' ' :: renderFloat d.saved_usage_units)) =
        (' ' :: '(' :: (renderFloat d.power ++ ['W', ')', ' ', '|', ' '])) ++
          renderFloat d.saved_usage_units by simp] at hc
    rw [List.getLast?_append_of_ne_nil _ (renderFloat_ne_nil _)] at hc
    have hmem : c ∈ renderFloat d.saved_usage_units := by
      cases hr : (renderFloat d.saved_usage_units).reverse with
      | nil =>
        exact absurd (by simpa using congrArg List.reverse hr) (renderFloat_ne_nil _)
      | cons e u =>
        rw [← List.head?_reverse, hr] at hc
        have : e = c := by simpa using hc
        subst this
        have : e ∈ (renderFloat d.saved_usage_units).reverse := by
          rw [hr]; exact List.mem_cons_self e u
        simpa using this
    exact (renderFloat_no_special _ c hmem).1

theorem parse_device_line_render (d : Device) (h : goodName d.name)
    (hp : decimalRep d.power) (hs : decimalRep d.saved_usage_units) :
    parse_device_line (device_line d) =
      some ⟨d.name, d.power, false, 0, d.saved_usage_units, none⟩ := by
  obtain ⟨hne, hstrip, hparen, hpipe⟩ := h
  have hRP := renderFloat_no_special d.power
  have hRS := renderFloat_no_special d.saved_usage_units
  have hA : '|' ∉ d.name ++ ' ' :: '(' :: (renderFloat d.power ++ ['W', ')']) := by
    intro hmem
    simp only [List.mem_append, List.mem_cons] at hmem
    rcases hmem with h1 | h1 | h1 | h1 | h1 | h1 | h1
    · exact hpipe h1
    · exact absurd h1 (by decide)
    · exact absurd h1 (by decide)
    · exact (hRP '|' h1).2.2.1 rfl
    · exact absurd h1 (by decide)
    · exact absurd h1 (by decide)
    · simp at h1
  have hspaceRS : ' ' ∉ renderFloat d.saved_usage_units :=
    fun hmem => (hRS ' ' hmem).2.1 rfl
  have hform : device_line d =
      (d.name ++ ' ' :: '(' :: (renderFloat d.power ++ ['W', ')'])) ++
        [' ', '|', ' '] ++ renderFloat d.saved_usage_units := by
    simp [device_line]
  have hsplit1 : pySplit [' ', '|', ' '] (device_line d) =
      [d.name ++ ' ' :: '(' :: (renderFloat d.power ++ ['W', ')']),
        renderFloat d.saved_usage_units] := by
    rw [hform, pySplit_append ' ' '|' [' '] _ _ (by decide) hA,
      pySplit_no_occurrence ' ' ['|', ' '] _ hspaceRS]
  have hspaceB2 : ' ' ∉ renderFloat d.power ++ ['W', ')'] := by
    intro hmem
    simp only [List.mem_append, List.mem_cons] at hmem
    rcases hmem with h1 | h1 | h1 | h1
    · exact (hRP ' ' h1).2.1 rfl
    · exact absurd h1 (by decide)
    · exact absurd h1 (by decide)
    · simp at h1
  have hform2 : d.name ++ ' ' :: '(' :: (renderFloat d.power ++ ['W', ')']) =
      d.name ++ [' ', '('] ++ (renderFloat d.power ++ ['W', ')']) := by
    simp
  have hsplit2 : pySplit [' ', '('] (d.name ++ ' ' :: '(' :: (renderFloat d.power ++ ['W', ')'])) =
      [d.name, renderFloat d.power ++ ['W', ')']] := by
    rw [hform2, pySplit_append ' ' '(' [] _ _ (by decide) hparen,
      pySplit_no_occurrence ' ' ['('] _ hspaceB2]
  have hparenRP : ')' ∉ renderFloat d.power :=
    fun hmem => (hRP ')' hmem).2.2.2.2.1 rfl
  have hform3 : renderFloat d.power ++ ['W', ')'] =
      renderFloat d.power ++ ['W', ')'] ++ ([] : List Char) := by
    simp
  have hsplit3 : pySplit ['W', ')'] (renderFloat d.power ++ ['W', ')']) =
      [renderFloat d.power, []] := by
    rw [hform3, pySplit_append 'W' ')' [] _ _ (by decide) hparenRP]
    rfl
  unfold parse_device_line
  rw [hsplit1]
  simp only [hsplit2, hsplit3, List.headD]
  rw [parseFloat_renderFloat _ hp, parseFloat_renderFloat _ hs]
  simp only [hstrip]

theorem paren_mem_device_line (d : Device) : '(' ∈ device_line d := by
  unfold device_line
  simp

theorem load_state_aux_save (devices : List Device) (logs : List (List Char))
    (h : ∀ d ∈ devices, goodName d.name ∧ decimalRep d.power ∧ decimalRep d.saved_usage_units) :
    load_state_aux true (devices.map device_line ++ [[], logsMarker] ++ logs) =
      devices.map (fun d =>
        ⟨d.name, d.power, false, 0, d.saved_usage_units, none⟩) := by
  induction devices with
  | nil =>
    show load_state_aux true ([] :: logsMarker :: logs) = []
    have h2 : pyStrip logsMarker = logsMarker := by decide
    have e0 : pyStrip ([] : List Char) = [] := rfl
    have e1 : ¬(logsMarker = ([] : List Char)) := by decide
    have e2 : ¬(logsMarker = devicesMarker) := by decide
    simp [load_state_aux, h2, e0, e1, e2]
  | cons d ds ih =>
    obtain ⟨hg, hpw, hsv⟩ := h d (List.mem_cons_self _ _)
    have hstripline := pyStrip_device_line d hg
    have hparen := paren_mem_device_line d
    have hne_nil : ¬(device_line d = []) := fun he => by
      rw [he] at hparen; simp at hparen
    have hne_dev : ¬(device_line d = devicesMarker) := fun he => by
      rw [he] at hparen; exact absurd hparen (by decide)
    have hne_logs : ¬(device_line d = logsMarker) := fun he => by
      rw [he] at hparen; exact absurd hparen (by decide)
    have hparse := parse_device_line_render d hg hpw hsv
    have ihh := ih (fun d' hd' => h d' (List.mem_cons_of_mem _ hd'))
    simp only [List.map_cons, List.cons_append]
    simp only [load_state_aux, hstripline, hne_nil, hne_dev, hne_logs, if_false,
      if_true, hparse]
    rw [ihh]

/-- Round trip of the summary block through `save_state` then `load_state`:
the loaded devices carry the same name, power and saved units. -/
theorem load_of_save (devices : List Device) (file : List (List Char))
    (h : ∀ d ∈ devices, goodName d.name ∧ decimalRep d.power ∧ decimalRep d.saved_usage_units) :
    load_state_devices (save_state devices file) =
      devices.map (fun d => ⟨d.name, d.power, false, 0, d.saved_usage_units, none⟩) := by
  unfold load_state_devices save_state
  have h1 : pyStrip devicesMarker = devicesMarker := by decide
  have h2 : ¬(devicesMarker = ([] : List Char)) := by decide
  simp only [load_state_aux, h1, h2, if_false, if_true]
  exact load_state_aux_save devices _ h

/-- C3 (amended): writing the summary block with `save_state` and re-reading
it with the `load_state` parser reproduces every `(name, power, saved_units)`
tuple exactly, provided each device name is non-empty, strip-invariant and
contains neither `'('` nor `'|'`, and the numeric fields are finite decimals
(as every Python float is). -/
theorem C3_theorem (devices : List Device) (file : List (List Char))
    (h : ∀ d ∈ devices,
      goodName d.name ∧ decimalRep d.power ∧ decimalRep d.saved_usage_units) :
    (load_state_devices (save_state devices file)).map
        (fun d => (d.name, d.power, d.saved_usage_units)) =
      devices.map (fun d => (d.name, d.power, d.saved_usage_units)) := by
  rw [load_of_save devices file h, List.map_map]
  rfl

/-- The two concrete devices used to witness the C3 round trip. -/
def c3Devices : List Device :=
  [⟨"TV".toList, 100, false, 0, 5 / 2, none⟩,
   ⟨"Fan room".toList, 75, true, 10, 0, some 3⟩]

/-- The concrete device whose name contains `" ("`, used against C3. -/
def c3BadDevices : List Device := [⟨"A (B".toList, 100, false, 0, 0, none⟩]

section RatReducible

attribute [local semireducible] Rat.add Rat.mul Rat.inv Rat.sub

/-- C3 witness: a concrete two-device state (one with a fractional saved
value) round-trips exactly through `save_state` and `load_state`. -/
theorem C3_witness :
    (load_state_devices (save_state c3Devices [])).map
        (fun d => (d.name, d.power, d.saved_usage_units)) =
      c3Devices.map (fun d => (d.name, d.power, d.saved_usage_units)) :=
  C3_theorem c3Devices [] (by decide)

/-- C3 counterexample: a device whose name contains `" ("` is dropped by the
`load_state` parser (its summary line splits into three pieces at `" ("`),
so the round trip does not reproduce the `(name, power, saved_units)` tuples
for every set of devices. -/
theorem C3_counterexample :
    (load_state_devices (save_state c3BadDevices [])).map
        (fun d => (d.name, d.power, d.saved_usage_units)) ≠
      c3BadDevices.map (fun d => (d.name, d.power, d.saved_usage_units)) := by
  decide

end RatReducible

/-- C2 (amended): consolidating changes `total_units` by exactly the energy
of the elapsed-but-unrecorded part of the running session; in particular it
is unchanged whenever the device is off or was refreshed at the same
instant. -/
theorem C2_theorem (now : ℕ) (d : Device) :
    (consolidate_device now d).get_total_units =
      d.get_total_units + unrecordedSessionEnergy now d := by
  unfold consolidate_device unrecordedSessionEnergy Device.get_total_units
    Device.get_session_units
  cases hon : d.is_on <;> cases hlt : d.last_on_time
  all_goals (simp [hon, hlt]; try ring)

/-- The concrete device used against C2: on for an hour without a refresh. -/
def c2Device : Device := ⟨"D".toList, 100, true, 0, 0, some 0⟩

section RatReducibleB

attribute [local semireducible] Rat.add Rat.mul Rat.inv Rat.sub

/-- C2 counterexample: for a 100 W device that has been on for one hour
since its last refresh, `consolidate` raises `total_units` (by 0.1), so the
claimed equality fails. -/
theorem C2_counterexample :
    (consolidate_device 3600000000 c2Device).get_total_units ≠
      c2Device.get_total_units := by
  decide

end RatReducibleB

theorem parse_device_line_shape (s : List Char) (dv : Device)
    (h : parse_device_line s = some dv) :
    dv.is_on = false ∧ dv.last_on_time = none := by
  unfold parse_device_line at h
  split at h
  · split at h
    · split at h
      · injection h with h
        subst h
        exact ⟨rfl, rfl⟩
      · exact absurd h (by simp)
    · exact absurd h (by simp)
  · exact absurd h (by simp)

theorem load_state_aux_inv (lines : List (List Char)) :
    ∀ flag d, d ∈ load_state_aux flag lines → deviceInv d := by
  induction lines with
  | nil => intro flag d hd; simp [load_state_aux] at hd
  | cons line rest ih =>
    intro flag d hd
    have hdm1 : ¬(devicesMarker = ([] : List Char)) := by decide
    have hlm1 : ¬(logsMarker = ([] : List Char)) := by decide
    have hlm2 : ¬(logsMarker = devicesMarker) := by decide
    by_cases h1 : pyStrip line = []
    · rw [show load_state_aux flag (line :: rest) = load_state_aux flag rest by
        simp [load_state_aux, h1]] at hd
      exact ih flag d hd
    · by_cases h2 : pyStrip line = devicesMarker
      · rw [show load_state_aux flag (line :: rest) = load_state_aux true rest by
          simp [load_state_aux, h1, h2, hdm1]] at hd
        exact ih true d hd
      · by_cases h3 : pyStrip line = logsMarker
        · rw [show load_state_aux flag (line :: rest) = [] by
            simp [load_state_aux, h1, h2, h3, hlm1, hlm2]] at hd
          simp at hd
        · cases flag with
          | false =>
            rw [show load_state_aux false (line :: rest) = load_state_aux false rest by
              simp [load_state_aux, h1, h2, h3]] at hd
            exact ih false d hd
          | true =>
            cases hp : parse_device_line (pyStrip line) with
            | none =>
              rw [show load_state_aux true (line :: rest) = load_state_aux true rest by
                simp [load_state_aux, h1, h2, h3, hp]] at hd
              exact ih true d hd
            | some dv =>
              rw [show load_state_aux true (line :: rest) = dv :: load_state_aux true rest by
                simp [load_state_aux, h1, h2, h3, hp]] at hd
              rcases List.mem_cons.mp hd with hd | hd
              · subst hd
                obtain ⟨ho, hl⟩ := parse_device_line_shape _ _ hp
                unfold deviceInv
                rw [ho, hl]
                simp
              · exact ih true d hd

theorem deviceInv_load (lines : List (List Char)) :
    ∀ d ∈ load_state_devices lines, deviceInv d :=
  fun d hd => load_state_aux_inv lines false d hd

/-- C7: `on_since` (`last_on_time`) is set iff `is_on`, for every device
obtained by creation or by loading from a file, after every sequence of
toggle / refresh / consolidate operations. -/
theorem C7_theorem (ops : List DeviceOp) (n : List Char) (p : ℚ)
    (lines : List (List Char)) :
    deviceInv (applyOps ops (mkDevice n p)) ∧
    ∀ d ∈ load_state_devices lines, deviceInv (applyOps ops d) :=
  ⟨deviceInv_applyOps ops _ (deviceInv_mk n p),
   fun d hd => deviceInv_applyOps ops d (deviceInv_load lines d hd)⟩

/-- A concrete operation sequence for the C7 witness. -/
def c7Ops : List DeviceOp := [.toggle 5, .refresh 7, .consolidate 9, .toggle 11]

/-- A concrete data file for the C7 witness. -/
def c7Lines : List (List Char) :=
  ["## DEVICES ##".toList, "TV (100.0W) | 2.5".toList]

section RatReducibleC

attribute [local semireducible] Rat.add Rat.mul Rat.inv Rat.sub

/-- C7 witness: the invariant holds along a concrete operation sequence for
a freshly created device and for a device loaded from a concrete file. -/
theorem C7_witness :
    ((⟨"TV".toList, 100, false, 0, 5 / 2, none⟩ : Device) ∈ load_state_devices c7Lines) ∧
    deviceInv (applyOps c7Ops (mkDevice "x".toList 100)) ∧
    deviceInv (applyOps c7Ops (⟨"TV".toList, 100, false, 0, 5 / 2, none⟩ : Device)) :=
  ⟨by decide, (C7_theorem c7Ops "x".toList 100 c7Lines).1,
   (C7_theorem c7Ops "x".toList 100 c7Lines).2 _ (by decide)⟩

end RatReducibleC

/-! ### The log block under summary rewrites (C4, C9) -/

theorem read_logs_aux_true_of_no_marker (B : List (List Char))
    (h : ∀ l ∈ B, pyStrip l ≠ logsMarker) : read_logs_aux true B = B := by
  induction B with
  | nil => rfl
  | cons l rest ih =>
    have hl := h l (List.mem_cons_self _ _)
    rw [show read_logs_aux true (l :: rest) = l :: read_logs_aux true rest by
      simp [read_logs_aux, hl]]
    rw [ih (fun l' hl' => h l' (List.mem_cons_of_mem _ hl'))]

theorem read_logs_eq_block (file B : List (List Char))
    (hB : logBlockAfter file = some B)
    (h : ∀ l ∈ B, pyStrip l ≠ logsMarker) :
    read_logs_aux false file = B := by
  induction file with
  | nil => simp [logBlockAfter] at hB
  | cons l rest ih =>
    by_cases hl : pyStrip l = logsMarker
    · have hrest : rest = B := by
        have := hB
        rw [show logBlockAfter (l :: rest) = some rest by
          simp [logBlockAfter, hl]] at this
        injection this
      rw [show read_logs_aux false (l :: rest) = read_logs_aux true rest by
        simp [read_logs_aux, hl]]
      rw [hrest]
      exact read_logs_aux_true_of_no_marker B h
    · have hB' : logBlockAfter rest = some B := by
        rw [show logBlockAfter (l :: rest) = logBlockAfter rest by
          simp [logBlockAfter, hl]] at hB
        exact hB
      rw [show read_logs_aux false (l :: rest) = read_logs_aux false rest by
        simp [read_logs_aux, hl]]
      exact ih hB'

theorem mem_dropWhile_of_not_ws (c : Char) (l : List Char)
    (hc : wsChar c = false) (hm : c ∈ l) : c ∈ l.dropWhile wsChar := by
  have hsplit := List.takeWhile_append_dropWhile (p := wsChar) (l := l)
  rw [← hsplit] at hm
  rcases List.mem_append.mp hm with hm | hm
  · have := List.mem_takeWhile_imp hm
    rw [hc] at this
    exact absurd this (by simp)
  · exact hm

theorem mem_pyStrip_of_not_ws (c : Char) (l : List Char)
    (hc : wsChar c = false) (hm : c ∈ l) : c ∈ pyStrip l := by
  unfold pyStrip
  have h1 : c ∈ l.dropWhile wsChar := mem_dropWhile_of_not_ws c l hc hm
  have h2 : c ∈ (l.dropWhile wsChar).reverse := by simpa using h1
  have h3 := mem_dropWhile_of_not_ws c _ hc h2
  simpa using h3

theorem strip_device_line_ne_logsMarker (d : Device) :
    pyStrip (device_line d) ≠ logsMarker := by
  intro he
  have hmem : '(' ∈ pyStrip (device_line d) :=
    mem_pyStrip_of_not_ws '(' _ (by decide) (paren_mem_device_line d)
  rw [he] at hmem
  exact absurd hmem (by decide)

theorem logBlockAfter_save (devices : List Device) (file : List (List Char)) :
    logBlockAfter (save_state devices file) = some (read_logs_aux false file) := by
  have hnorm : save_state devices file =
      devicesMarker :: (devices.map device_line ++
        ([] :: logsMarker :: read_logs_aux false file)) := by
    simp [save_state]
  rw [hnorm,
    show logBlockAfter (devicesMarker :: (devices.map device_line ++
        ([] :: logsMarker :: read_logs_aux false file))) =
      logBlockAfter (devices.map device_line ++
        ([] :: logsMarker :: read_logs_aux false file)) by
      simp [logBlockAfter, show pyStrip devicesMarker ≠ logsMarker by decide]]
  clear hnorm
  induction devices with
  | nil =>
    simp only [List.map_nil, List.nil_append]
    rw [show logBlockAfter ([] :: logsMarker :: read_logs_aux false file) =
        logBlockAfter (logsMarker :: read_logs_aux false file) by
      simp [logBlockAfter, show pyStrip ([] : List Char) ≠ logsMarker by decide]]
    simp [logBlockAfter, show pyStrip logsMarker = logsMarker by decide]
  | cons d ds ih =>
    simp only [List.map_cons, List.cons_append]
    rw [show logBlockAfter (device_line d :: (List.map device_line ds ++
        ([] :: logsMarker :: read_logs_aux false file))) =
      logBlockAfter (List.map device_line ds ++
        ([] :: logsMarker :: read_logs_aux false file)) by
      simp [logBlockAfter, strip_device_line_ne_logsMarker d]]
    exact ih

/-- C4 (amended): provided no line of the log block itself strips to
`## LOGS ##`, any number of consecutive `save_state` calls (with arbitrary
device lists) leave the log block — the lines after the first `## LOGS ##`
line — unchanged.  (The first save removes any embedded marker lines, which
is why the proviso is needed.) -/
theorem C4_theorem (file : List (List Char)) (B : List (List Char))
    (hB : logBlockAfter file = some B)
    (hclean : ∀ l ∈ B, pyStrip l ≠ logsMarker)
    (seq : List (List Device)) :
    logBlockAfter (seq.foldl (fun f ds => save_state ds f) file) = some B := by
  induction seq generalizing file with
  | nil => exact hB
  | cons ds seq' ih =>
    show logBlockAfter (seq'.foldl (fun f ds => save_state ds f) (save_state ds file)) =
      some B
    apply ih
    rw [logBlockAfter_save, read_logs_eq_block file B hB hclean]

/-- A file whose log block itself contains a `## LOGS ##` line, used
against C4. -/
def c4BadFile : List (List Char) :=
  [logsMarker, logsMarker, "x".toList]

/-- C4 counterexample: for a file whose log block contains an embedded
`## LOGS ##` line, a single summary-only rewrite drops that line, so the
log block is not byte-for-byte preserved for every file with a marker. -/
theorem C4_counterexample :
    logBlockAfter c4BadFile = some [logsMarker, "x".toList] ∧
    logBlockAfter (save_state [] c4BadFile) ≠ some [logsMarker, "x".toList] := by
  constructor
  · decide
  · decide

/-- A well-formed concrete file for the C4 witness. -/
def c4File : List (List Char) := [logsMarker, "a".toList]

/-- C4 witness: two consecutive summary-only rewrites of a concrete file
leave its (marker-free) log block unchanged. -/
theorem C4_witness :
    logBlockAfter c4File = some ["a".toList] ∧
    logBlockAfter (([[], []] : List (List Device)).foldl
      (fun f ds => save_state ds f) c4File) = some ["a".toList] :=
  ⟨by decide, C4_theorem c4File ["a".toList] (by decide) (by decide) [[], []]⟩

theorem read_logs_aux_false_no_marker (file : List (List Char))
    (h : ∀ l ∈ file, pyStrip l ≠ logsMarker) : read_logs_aux false file = [] := by
  induction file with
  | nil => rfl
  | cons l rest ih =>
    have hl := h l (List.mem_cons_self _ _)
    rw [show read_logs_aux false (l :: rest) = read_logs_aux false rest by
      simp [read_logs_aux, hl]]
    exact ih (fun l' hl' => h l' (List.mem_cons_of_mem _ hl'))

/-- C9: if the data file contains no `## LOGS ##` marker line (as happens
when toggle events were appended before the first save), the next
`save_state` discards every previously appended log line: the rewritten
file's log block is empty. -/
theorem C9_theorem (file : List (List Char))
    (h : ∀ l ∈ file, pyStrip l ≠ logsMarker) (devices : List Device) :
    logBlockAfter (save_state devices file) = some [] := by
  rw [logBlockAfter_save, read_logs_aux_false_no_marker file h]

/-- C9 witness: a file holding only appended toggle log lines (no marker)
loses them all at the next save. -/
theorem C9_witness :
    logBlockAfter (save_state [] ["[2024-01-01 10:00:00] D turned ON".toList]) =
      some [] :=
  C9_theorem ["[2024-01-01 10:00:00] D turned ON".toList] (by decide) []

/-! ### Daily aggregator (`App.show_stats`) -/

/-- One parsed log entry of the log block: timestamp (microseconds since
the epoch, naive local time), device name, and status (`ON` / `OFF`). -/
structure LogEntry where
  timestamp : ℕ
  device : List Char
  status : List Char
  deriving DecidableEq, Repr

/-- Microseconds in a calendar day. -/
def dayUS : ℕ := 86400000000

/-- `ts.date()`: the calendar-day index of a timestamp. -/
def dateOf (t : ℕ) : ℕ := t / dayUS

/-- `datetime.combine(d, time.min)` in microseconds. -/
def dayStart (d : ℕ) : ℕ := d * dayUS

/-- `datetime.combine(d, time.max)`: 23:59:59.999999 of day `d`. -/
def dayEnd (d : ℕ) : ℕ := d * dayUS + 86399999999

/-- `device_power_map = {d.name: d.power for d in self.devices}` (later
duplicates win, as in a Python dict comprehension). -/
def devicePower (devices : List Device) (n : List Char) : Option ℚ :=
  (devices.reverse.find? (fun d => d.name == n)).map Device.power

/-- The Python dict `daily_usage_seconds_cumulative`, as an association
list in insertion order with unique keys. -/
abbrev UsageMap : Type := List ((ℕ × List Char) × ℚ)

/-- `daily_usage[key] = daily_usage.get(key, 0) + duration` (updating in
place preserves the key's position, as a Python dict does). -/
def addUsage (k : ℕ × List Char) (dur : ℚ) : UsageMap → UsageMap
  | [] => [(k, dur)]
  | (k', v) :: rest =>
    if k' = k then (k', v + dur) :: rest else (k', v) :: addUsage k dur rest

/-- Dict lookup. -/
def usageLookup (m : UsageMap) (k : ℕ × List Char) : Option ℚ :=
  ((m : List ((ℕ × List Char) × ℚ)).find? (fun p => p.1 == k)).map Prod.snd

/-- The midnight-splitting loop of `show_stats`: walk the calendar days
from `startT.date()` to `endT.date()`, clip the interval to each day's
`[time.min, time.max]` bounds, and accumulate positive slices (in
seconds). -/
def attributeInterval (name : List Char) (startT endT : ℕ) (m : UsageMap) : UsageMap :=
  (List.range' (dateOf startT) (dateOf endT + 1 - dateOf startT)).foldl
    (fun acc d =>
      let s := max startT (dayStart d)
      let e := min endT (dayEnd d)
      let dur : ℚ := elapsedSeconds e s
      if 0 < dur then addUsage (d, name) dur acc else acc) m

/-- State of the replay loop: `open_sessions` and the usage dict. -/
structure ReplayState where
  openSessions : List (List Char × ℕ)
  usage : UsageMap
  deriving DecidableEq

/-- `open_sessions[name] = ts`. -/
def setOpen (n : List Char) (t : ℕ) : List (List Char × ℕ) → List (List Char × ℕ)
  | [] => [(n, t)]
  | (m', u) :: rest => if m' = n then (n, t) :: rest else (m', u) :: setOpen n t rest

/-- `open_sessions.get(name)`. -/
def getOpen (openS : List (List Char × ℕ)) (n : List Char) : Option ℕ :=
  (openS.find? (fun p => p.1 == n)).map Prod.snd

/-- `open_sessions.pop(name)`. -/
def removeOpen (n : List Char) (openS : List (List Char × ℕ)) : List (List Char × ℕ) :=
  openS.filter (fun p => !(p.1 == n))

/-- One iteration of the replay loop: skip devices missing from
`device_power_map`; ON records/overwrites the open start; OFF with an open
start pops it and attributes the interval; a dangling OFF is ignored. -/
def replayStep (devices : List Device) (st : ReplayState) (e : LogEntry) : ReplayState :=
  if (devicePower devices e.device).isSome then
    if e.status = "ON".toList then
      { st with openSessions := setOpen e.device e.timestamp st.openSessions }
    else if e.status = "OFF".toList then
      match getOpen st.openSessions e.device with
      | some startT =>
          { openSessions := removeOpen e.device st.openSessions,
            usage := attributeInterval e.device startT e.timestamp st.usage }
      | none => st
    else st
  else st

/-- `sorted(processed_logs, key=lambda x: x['timestamp'])` (stable). -/
def sortLogs (logs : List LogEntry) : List LogEntry :=
  List.insertionSort (fun a b => a.timestamp ≤ b.timestamp) logs

/-- Replay of the whole (sorted) log block. -/
def replayLogs (devices : List Device) (logs : List LogEntry) : ReplayState :=
  (sortLogs logs).foldl (replayStep devices) ⟨[], []⟩

/-- The still-open live sessions of currently-on devices, attributed up to
`now`. -/
def addLiveSessions (devices : List Device) (now : ℕ) (m : UsageMap) : UsageMap :=
  devices.foldl
    (fun acc d =>
      if d.is_on then
        match d.last_on_time with
        | some t => attributeInterval d.name t now acc
        | none => acc
      else acc) m

/-- The complete `daily_usage_seconds_cumulative` map. -/
def dailyUsageMap (devices : List Device) (logs : List LogEntry) (now : ℕ) : UsageMap :=
  addLiveSessions devices now (replayLogs devices logs).usage

/-- Units credited to `(date, name)` when the table is filled:
`device_power_map.get(name, 0) * seconds / (1000 * 3600)` (0 when the key
is absent, matching the dataframe's 0.0 initialisation). -/
def attributedUnits (devices : List Device) (logs : List LogEntry) (now : ℕ)
    (date : ℕ) (name : List Char) : ℚ :=
  (devicePower devices name).getD 0 *
    ((usageLookup (dailyUsageMap devices logs now) (date, name)).getD 0) / (1000 * 3600)

/-- C8: an OFF entry whose device has no open session (no unmatched
preceding ON) leaves the replay state — and hence every day's usage —
unchanged, and the replay step is total (never raises). -/
theorem C8_theorem (devices : List Device) (st : ReplayState) (e : LogEntry)
    (hoff : e.status = "OFF".toList)
    (hopen : getOpen st.openSessions e.device = none) :
    replayStep devices st e = st := by
  unfold replayStep
  by_cases hp : (devicePower devices e.device).isSome = true
  · rw [if_pos hp, if_neg (by rw [hoff]; decide), if_pos hoff, hopen]
  · rw [if_neg hp]

/-- The single 100 W device used in the C8 witness. -/
def c8Devices : List Device := [⟨"D".toList, 100, false, 0, 0, none⟩]

/-- C8 witness: a dangling OFF for a known device on an empty state is a
no-op. -/
theorem C8_witness :
    ((⟨0, "D".toList, "OFF".toList⟩ : LogEntry).status = "OFF".toList ∧
     getOpen (⟨[], []⟩ : ReplayState).openSessions "D".toList = none) ∧
    replayStep c8Devices ⟨[], []⟩ ⟨0, "D".toList, "OFF".toList⟩ = (⟨[], []⟩ : ReplayState) :=
  ⟨⟨rfl, rfl⟩, C8_theorem c8Devices ⟨[], []⟩ ⟨0, "D".toList, "OFF".toList⟩ rfl rfl⟩

/-- 2024-01-01 as a day index (days since 1970-01-01). -/
def c1Day1 : ℕ := 19723

/-- 2024-01-01 23:00:00 in microseconds. -/
def c1On : ℕ := c1Day1 * dayUS + 82800000000

/-- 2024-01-02 01:00:00 in microseconds. -/
def c1Off : ℕ := (c1Day1 + 1) * dayUS + 3600000000

/-- The 100 W device of the C1 scenario. -/
def c1Devices : List Device := [⟨"D".toList, 100, false, 0, 0, none⟩]

/-- The matched ON/OFF pair of the C1 scenario. -/
def c1Logs : List LogEntry :=
  [⟨c1On, "D".toList, "ON".toList⟩, ⟨c1Off, "D".toList, "OFF".toList⟩]

section RatReducibleD

attribute [local semireducible] Rat.add Rat.mul Rat.inv Rat.sub

/-- C1 counterexample: the code clips the first day at 23:59:59.999999
(`time.max`), so 2024-01-01 is credited 3599.999999 seconds, not a full
hour: the attributed units are not exactly 0.1. -/
theorem C1_counterexample :
    attributedUnits c1Devices c1Logs c1Off c1Day1 "D".toList ≠ 1 / 10 := by
  decide

/-- C1 (amended): the session from 2024-01-01 23:00:00 to 2024-01-02
01:00:00 for a 100 W device is split at local midnight into
100 x 3599.999999 / 3,600,000 = 3599999999/36000000000 units (one
microsecond of usage short of 0.1) on day one and exactly 0.1 units on day
two. -/
theorem C1_theorem :
    attributedUnits c1Devices c1Logs c1Off c1Day1 "D".toList =
      3599999999 / 36000000000 ∧
    attributedUnits c1Devices c1Logs c1Off (c1Day1 + 1) "D".toList = 1 / 10 :=
  ⟨by decide, by decide⟩

end RatReducibleD

/-- `dates_for_columns = [today - timedelta(days=i) for i in range(6,-1,-1)]`. -/
def dates_for_columns (today : ℕ) : List ℕ :=
  (List.range 7).reverse.map (fun i => today - i)

/-- The keys of the usage dict. -/
def usageKeys (m : UsageMap) : List (ℕ × List Char) :=
  (m : List ((ℕ × List Char) × ℚ)).map Prod.fst

/-- `sorted(list(set([d.name for d in devices] + [k[1] for k in usage])))`:
the row index of the stats dataframe. -/
def statsRowNames (devices : List Device) (logs : List LogEntry) (now : ℕ) :
    List (List Char) :=
  List.insertionSort (· ≤ ·)
    ((devices.map Device.name ++
      (usageKeys (dailyUsageMap devices logs now)).map Prod.snd).dedup)

/-- A single cell assignment `df.loc[r, c] = v`. -/
def dfUpdate (r : List Char) (c : ℕ) (v : ℚ) (df : List Char → ℕ → ℚ) :
    List Char → ℕ → ℚ :=
  fun r' c' => if r' = r ∧ c' = c then v else df r' c'

/-- The stats dataframe as a cell function: initialised to 0.0, filled from
the usage dict (guarded by membership in index/columns), then today's
column overwritten with each current device's live `get_total_units`. -/
def statsDF (devices : List Device) (logs : List LogEntry) (now : ℕ) :
    List Char → ℕ → ℚ :=
  devices.foldl
    (fun df d =>
      if d.name ∈ statsRowNames devices logs now ∧
          dateOf now ∈ dates_for_columns (dateOf now) then
        dfUpdate d.name (dateOf now) d.get_total_units df
      else df)
    ((dailyUsageMap devices logs now).foldl
      (fun df entry =>
        if entry.1.1 ∈ dates_for_columns (dateOf now) ∧
            entry.1.2 ∈ statsRowNames devices logs now then
          dfUpdate entry.1.2 entry.1.1
            ((devicePower devices entry.1.2).getD 0 * entry.2 / (1000 * 3600)) df
        else df)
      (fun _ _ => 0))

theorem usageKeys_addUsage (k : ℕ × List Char) (dur : ℚ) (m : UsageMap) :
    ∀ k' ∈ usageKeys (addUsage k dur m), k' ∈ usageKeys m ∨ k' = k := by
  induction m with
  | nil =>
    intro k' hk
    simp [addUsage, usageKeys] at hk
    exact Or.inr hk
  | cons p rest ih =>
    intro k' hk
    obtain ⟨kp, vp⟩ := p
    by_cases he : kp = k
    · rw [show addUsage k dur ((kp, vp) :: rest) = (kp, vp + dur) :: rest by
        simp [addUsage, he]] at hk
      simp only [usageKeys, List.map_cons, List.mem_cons] at hk ⊢
      rcases hk with hk | hk
      · exact Or.inl (Or.inl hk)
      · exact Or.inl (Or.inr hk)
    · rw [show addUsage k dur ((kp, vp) :: rest) = (kp, vp) :: addUsage k dur rest by
        simp [addUsage, he]] at hk
      simp only [usageKeys, List.map_cons, List.mem_cons] at hk ⊢
      rcases hk with hk | hk
      · exact Or.inl (Or.inl hk)
      · rcases ih k' (by simpa [usageKeys] using hk) with h | h
        · exact Or.inl (Or.inr (by simpa [usageKeys] using h))
        · exact Or.inr h

theorem usageKeys_attributeInterval (name : List Char) (a b : ℕ) (m : UsageMap) :
    ∀ k' ∈ usageKeys (attributeInterval name a b m),
      k' ∈ usageKeys m ∨ k'.2 = name := by
  unfold attributeInterval
  generalize List.range' (dateOf a) (dateOf b + 1 - dateOf a) = days
  induction days generalizing m with
  | nil => intro k' hk; exact Or.inl hk
  | cons d ds ih =>
    intro k' hk
    simp only [List.foldl_cons] at hk
    by_cases hdur : (0 : ℚ) < elapsedSeconds (min b (dayEnd d)) (max a (dayStart d))
    · rw [if_pos hdur] at hk
      rcases ih (addUsage (d, name) _ m) k' hk with h | h
      · rcases usageKeys_addUsage (d, name) _ m k' h with h2 | h2
        · exact Or.inl h2
        · exact Or.inr (by rw [h2])
      · exact Or.inr h
    · rw [if_neg hdur] at hk
      exact ih m k' hk

theorem devicePower_isSome_iff (devices : List Device) (n : List Char) :
    (devicePower devices n).isSome = true ↔ n ∈ devices.map Device.name := by
  unfold devicePower
  rw [Option.isSome_map']
  rw [List.find?_isSome]
  constructor
  · rintro ⟨d, hd, hdn⟩
    have : d.name = n := by simpa using hdn
    exact this ▸ List.mem_map_of_mem Device.name (by simpa using hd)
  · intro hn
    rcases List.mem_map.mp hn with ⟨d, hd, hdn⟩
    exact ⟨d, by simpa using hd, by simpa using hdn⟩

theorem usageKeys_replayStep (devices : List Device) (st : ReplayState) (e : LogEntry) :
    ∀ k ∈ usageKeys (replayStep devices st e).usage,
      k ∈ usageKeys st.usage ∨ k.2 ∈ devices.map Device.name := by
  intro k hk
  unfold replayStep at hk
  by_cases hp : (devicePower devices e.device).isSome = true
  · rw [if_pos hp] at hk
    by_cases hon : e.status = "ON".toList
    · rw [if_pos hon] at hk
      exact Or.inl hk
    · rw [if_neg hon] at hk
      by_cases hoff : e.status = "OFF".toList
      · rw [if_pos hoff] at hk
        cases hop : getOpen st.openSessions e.device with
        | none => rw [hop] at hk; exact Or.inl hk
        | some startT =>
          rw [hop] at hk
          rcases usageKeys_attributeInterval e.device startT e.timestamp st.usage k hk
            with h | h
          · exact Or.inl h
          · exact Or.inr (h ▸ (devicePower_isSome_iff devices e.device).mp hp)
      · rw [if_neg hoff] at hk
        exact Or.inl hk
  · rw [if_neg hp] at hk
    exact Or.inl hk

theorem usageKeys_replayLogs (devices : List Device) (logs : List LogEntry) :
    ∀ k ∈ usageKeys (replayLogs devices logs).usage,
      k.2 ∈ devices.map Device.name := by
  unfold replayLogs
  generalize sortLogs logs = entries
  have main : ∀ (es : List LogEntry) (st : ReplayState) k,
      k ∈ usageKeys (es.foldl (replayStep devices) st).usage →
      k ∈ usageKeys st.usage ∨ k.2 ∈ devices.map Device.name := by
    intro es
    induction es with
    | nil => intro st k hk; exact Or.inl hk
    | cons e es' ih =>
      intro st k hk
      simp only [List.foldl_cons] at hk
      rcases ih (replayStep devices st e) k hk with h | h
      · exact usageKeys_replayStep devices st e k h
      · exact Or.inr h
  intro k hk
  rcases main entries ⟨[], []⟩ k hk with h | h
  · simp [usageKeys] at h
  · exact h

theorem usageKeys_addLiveSessions (devices : List Device) (now : ℕ) (m : UsageMap) :
    ∀ k ∈ usageKeys (addLiveSessions devices now m),
      k ∈ usageKeys m ∨ k.2 ∈ devices.map Device.name := by
  unfold addLiveSessions
  have main : ∀ (ds : List Device) (acc : UsageMap) k,
      k ∈ usageKeys (ds.foldl (fun acc d =>
        if d.is_on then
          match d.last_on_time with
          | some t => attributeInterval d.name t now acc
          | none => acc
        else acc) acc) →
      k ∈ usageKeys acc ∨ k.2 ∈ ds.map Device.name := by
    intro ds
    induction ds with
    | nil => intro acc k hk; exact Or.inl hk
    | cons d ds' ih =>
      intro acc k hk
      simp only [List.foldl_cons] at hk
      have step : ∀ k', k' ∈ usageKeys (if d.is_on then
          match d.last_on_time with
          | some t => attributeInterval d.name t now acc
          | none => acc
        else acc) → k' ∈ usageKeys acc ∨ k'.2 = d.name := by
        intro k' hk'
        by_cases hon : d.is_on
        · rw [if_pos hon] at hk'
          cases hlt : d.last_on_time with
          | none => rw [hlt] at hk'; exact Or.inl hk'
          | some t =>
            rw [hlt] at hk'
            exact usageKeys_attributeInterval d.name t now acc k' hk'
        · rw [if_neg hon] at hk'
          exact Or.inl hk'
      rcases ih _ k hk with h | h
      · rcases step k h with h2 | h2
        · exact Or.inl h2
        · exact Or.inr (by simp [h2])
      · exact Or.inr (by simp [h])
  intro k hk
  exact main devices m k hk

theorem usageKeys_dailyUsageMap (devices : List Device) (logs : List LogEntry) (now : ℕ) :
    ∀ k ∈ usageKeys (dailyUsageMap devices logs now),
      k.2 ∈ devices.map Device.name := by
  intro k hk
  unfold dailyUsageMap at hk
  rcases usageKeys_addLiveSessions devices now _ k hk with h | h
  · exact usageKeys_replayLogs devices logs k h
  · exact h

theorem mem_statsRowNames_iff (devices : List Device) (logs : List LogEntry) (now : ℕ)
    (n : List Char) :
    n ∈ statsRowNames devices logs now ↔ n ∈ devices.map Device.name := by
  unfold statsRowNames
  rw [(List.perm_insertionSort _ _).mem_iff, List.mem_dedup, List.mem_append]
  constructor
  · rintro (h | h)
    · exact h
    · rcases List.mem_map.mp h with ⟨k, hk, hkn⟩
      exact hkn ▸ usageKeys_dailyUsageMap devices logs now k hk
  · exact Or.inl

theorem statsRowNames_nodup (devices : List Device) (logs : List LogEntry) (now : ℕ) :
    (statsRowNames devices logs now).Nodup :=
  ((List.perm_insertionSort _ _).nodup_iff).mpr (List.nodup_dedup _)

theorem statsRowNames_sorted (devices : List Device) (logs : List LogEntry) (now : ℕ) :
    List.Sorted (· ≤ ·) (statsRowNames devices logs now) :=
  List.sorted_insertionSort _ _

theorem dates_for_columns_eq (today : ℕ) :
    dates_for_columns today =
      [today - 6, today - 5, today - 4, today - 3, today - 2, today - 1, today] := by
  have h : (List.range 7).reverse = [6, 5, 4, 3, 2, 1, 0] := by decide
  unfold dates_for_columns
  rw [h]
  simp

theorem df_fold_usage_skip (devices : List Device) (cols : List ℕ)
    (rows : List (List Char)) (l : List ((ℕ × List Char) × ℚ))
    (r : List Char) (c : ℕ)
    (h : ∀ p ∈ l, ¬(p.1.2 = r ∧ p.1.1 = c)) :
    ∀ df0 : List Char → ℕ → ℚ,
      (l.foldl (fun df entry =>
        if entry.1.1 ∈ cols ∧ entry.1.2 ∈ rows then
          dfUpdate entry.1.2 entry.1.1
            ((devicePower devices entry.1.2).getD 0 * entry.2 / (1000 * 3600)) df
        else df) df0) r c = df0 r c := by
  induction l with
  | nil => intro df0; rfl
  | cons p ps ih =>
    intro df0
    simp only [List.foldl_cons]
    rw [ih (fun p' hp' => h p' (List.mem_cons_of_mem _ hp'))]
    by_cases hc : p.1.1 ∈ cols ∧ p.1.2 ∈ rows
    · rw [if_pos hc]
      unfold dfUpdate
      rw [if_neg (fun hcon => h p (List.mem_cons_self _ _) ⟨hcon.1.symm, hcon.2.symm⟩)]
    · rw [if_neg hc]

theorem df_fold_devices_skip (today : ℕ) (cols : List ℕ) (rows : List (List Char))
    (ds : List Device) (r : List Char) (c : ℕ)
    (h : ∀ d ∈ ds, ¬(d.name = r ∧ today = c)) :
    ∀ df0 : List Char → ℕ → ℚ,
      (ds.foldl (fun df d =>
        if d.name ∈ rows ∧ today ∈ cols then
          dfUpdate d.name today d.get_total_units df
        else df) df0) r c = df0 r c := by
  induction ds with
  | nil => intro df0; rfl
  | cons x xs ih =>
    intro df0
    simp only [List.foldl_cons]
    rw [ih (fun d' hd' => h d' (List.mem_cons_of_mem _ hd'))]
    by_cases hc : x.name ∈ rows ∧ today ∈ cols
    · rw [if_pos hc]
      unfold dfUpdate
      rw [if_neg (fun hcon => h x (List.mem_cons_self _ _) ⟨hcon.1.symm, hcon.2.symm⟩)]
    · rw [if_neg hc]

theorem df_fold_devices_today (today : ℕ) (cols : List ℕ) (rows : List (List Char))
    (ds : List Device) (d : Device) (hd : d ∈ ds)
    (hnd : (ds.map Device.name).Nodup)
    (hrow : ∀ d' ∈ ds, d'.name ∈ rows) (hcol : today ∈ cols) :
    ∀ df0 : List Char → ℕ → ℚ,
      (ds.foldl (fun df d' =>
        if d'.name ∈ rows ∧ today ∈ cols then
          dfUpdate d'.name today d'.get_total_units df
        else df) df0) d.name today = d.get_total_units := by
  induction ds with
  | nil => simp at hd
  | cons x xs ih =>
    intro df0
    simp only [List.foldl_cons]
    rcases List.mem_cons.mp hd with hdx | hdx
    · subst hdx
      have hnotin : ∀ d' ∈ xs, ¬(d'.name = d.name ∧ today = today) := by
        intro d' hd' hcon
        have hmm : d.name ∈ xs.map Device.name := hcon.1 ▸ List.mem_map_of_mem Device.name hd'
        exact (List.nodup_cons.mp hnd).1 hmm
      rw [df_fold_devices_skip today cols rows xs d.name today hnotin]
      rw [if_pos ⟨hrow d (List.mem_cons_self _ _), hcol⟩]
      unfold dfUpdate
      rw [if_pos ⟨rfl, rfl⟩]
    · exact ih hdx (List.nodup_cons.mp hnd).2
        (fun d' hd' => hrow d' (List.mem_cons_of_mem _ hd')) _

theorem usageLookup_none_not_mem (m : UsageMap) (k : ℕ × List Char)
    (h : usageLookup m k = none) : ∀ p ∈ (m : List ((ℕ × List Char) × ℚ)), p.1 ≠ k := by
  intro p hp he
  unfold usageLookup at h
  rw [Option.map_eq_none'] at h
  rw [List.find?_eq_none] at h
  exact absurd (by simpa using he) (by simpa using h p hp)

/-- C5 (amended): the stats table has one row for every device in the
CURRENT device list — log entries for devices absent from it are skipped by
the replay — rows sorted and without duplicates; one column per day of the
last 7 calendar days oldest to newest; cells default to 0 for any
(device, day) with no attributed usage, except that today's column is
overwritten with each current device's live `total_units`. -/
theorem C5_theorem (devices : List Device) (logs : List LogEntry) (now : ℕ)
    (hnd : (devices.map Device.name).Nodup) :
    (∀ n, n ∈ statsRowNames devices logs now ↔ n ∈ devices.map Device.name) ∧
    (statsRowNames devices logs now).Nodup ∧
    List.Sorted (· ≤ ·) (statsRowNames devices logs now) ∧
    dates_for_columns (dateOf now) =
      [dateOf now - 6, dateOf now - 5, dateOf now - 4, dateOf now - 3,
       dateOf now - 2, dateOf now - 1, dateOf now] ∧
    (∀ r c, r ∈ statsRowNames devices logs now →
      c ∈ dates_for_columns (dateOf now) → c ≠ dateOf now →
      usageLookup (dailyUsageMap devices logs now) (c, r) = none →
      statsDF devices logs now r c = 0) ∧
    (∀ d ∈ devices, statsDF devices logs now d.name (dateOf now) = d.get_total_units) := by
  refine ⟨mem_statsRowNames_iff devices logs now, statsRowNames_nodup devices logs now,
    statsRowNames_sorted devices logs now, dates_for_columns_eq (dateOf now), ?_, ?_⟩
  · intro r c hr hc hcne hlk
    unfold statsDF
    rw [df_fold_devices_skip (dateOf now) _ _ devices r c
      (fun d hd hcon => hcne hcon.2.symm)]
    rw [df_fold_usage_skip devices _ _ _ r c
      (fun p hp hcon => usageLookup_none_not_mem _ (c, r) hlk p hp
        (by rw [Prod.ext_iff]; exact ⟨hcon.2, hcon.1⟩))]
  · intro d hd
    unfold statsDF
    exact df_fold_devices_today (dateOf now) _ _ devices d hd hnd
      (fun d' hd' => (mem_statsRowNames_iff devices logs now d'.name).mpr
        (List.mem_map_of_mem Device.name hd'))
      (by rw [dates_for_columns_eq]; simp) _

/-- The current device list of the C5 scenario (only `X`). -/
def c5Devices : List Device := [⟨"X".toList, 100, false, 0, 0, none⟩]

/-- A log block mentioning only the removed device `Y`. -/
def c5Logs : List LogEntry :=
  [⟨c1On, "Y".toList, "ON".toList⟩, ⟨c1Off, "Y".toList, "OFF".toList⟩]

section RatReducibleE

attribute [local semireducible] Rat.add Rat.mul Rat.inv Rat.sub

/-- C5 counterexample: device `Y` appears in the log block (with a matched
ON/OFF pair) but is no longer in the current device list, and the table has
no row for it, so the table does not cover every device ever seen in the
log block. -/
theorem C5_counterexample :
    (⟨c1On, "Y".toList, "ON".toList⟩ : LogEntry) ∈ c5Logs ∧
    (⟨c1Off, "Y".toList, "OFF".toList⟩ : LogEntry) ∈ c5Logs ∧
    "Y".toList ∉ statsRowNames c5Devices c5Logs c1Off := by
  refine ⟨by decide, by decide, by decide⟩

/-- C5 witness: the amended row/column/cell description instantiated on the
concrete scenario. -/
theorem C5_witness :
    (c5Devices.map Device.name).Nodup ∧
    ("X".toList ∈ statsRowNames c5Devices c5Logs c1Off ↔
      "X".toList ∈ c5Devices.map Device.name) :=
  ⟨by decide, (C5_theorem c5Devices c5Logs c1Off (by decide)).1 "X".toList⟩

end RatReducibleE

/-! ### Leaderboard (`App.show_leaderboard`) -/

/-- One leaderboard row. -/
structure LeaderboardEntry where
  username : List Char
  total_usage : ℚ
  deriving DecidableEq, Repr

/-- The active user's live total: sum of `get_total_units` over the
in-memory devices. -/
def currentUserTotal (devices : List Device) : ℚ :=
  devices.foldl (fun acc d => acc + d.get_total_units) 0

/-- The per-file scan of `show_leaderboard`: sum the `saved_units` field of
each well-formed device line (split on `" | "`, float-parse the usage
part), skipping bad lines, stopping at `## LOGS ##`. -/
def total_usage_aux : Bool → ℚ → List (List Char) → ℚ
  | _, acc, [] => acc
  | flag, acc, line :: rest =>
    let stripped := pyStrip line
    if stripped = [] then total_usage_aux flag acc rest
    else if stripped = devicesMarker then total_usage_aux true acc rest
    else if stripped = logsMarker then acc
    else if flag then
      match pySplit [' ', '|', ' '] stripped with
      | [_, usage] =>
        match parseFloat usage with
        | some v => total_usage_aux flag (acc + v) rest
        | none => total_usage_aux flag acc rest
      | _ => total_usage_aux flag acc rest
    else total_usage_aux flag acc rest

/-- `total_usage_from_file` for one user file. -/
def total_usage_from_file (lines : List (List Char)) : ℚ :=
  total_usage_aux false 0 lines

/-- The literal filename suffix `_data.txt`. -/
def dataSuffix : List Char := "_data.txt".toList

/-- `filename.replace("_data.txt", "")`. -/
def username_from_file (fn : List Char) : List Char :=
  pyReplace fn dataSuffix []

/-- The leaderboard rows in directory-discovery order: one per file ending
in `_data.txt`; the row whose derived username equals the active user's
gets the live in-memory total instead of the file total. -/
def leaderboard_entries (username : List Char) (devices : List Device)
    (files : List (List Char × List (List Char))) : List LeaderboardEntry :=
  files.filterMap (fun f =>
    if dataSuffix.isSuffixOf f.1 then
      some ⟨username_from_file f.1,
        if username_from_file f.1 = username then currentUserTotal devices
        else total_usage_from_file f.2⟩
    else none)

/-- Comparison key of the final sort: total usage, ascending. -/
def entryLE (a b : LeaderboardEntry) : Prop := a.total_usage ≤ b.total_usage

instance : DecidableRel entryLE := fun a b => by unfold entryLE; infer_instance

instance : IsTotal LeaderboardEntry entryLE :=
  ⟨fun a b => le_total a.total_usage b.total_usage⟩

instance : IsTrans LeaderboardEntry entryLE :=
  ⟨fun _ _ _ hab hbc => le_trans hab hbc⟩

/-- `leaderboard_data.sort(key=lambda x: x['total_usage'])`: ascending and
stable. -/
def show_leaderboard_data (username : List Char) (devices : List Device)
    (files : List (List Char × List (List Char))) : List LeaderboardEntry :=
  List.insertionSort entryLE (leaderboard_entries username devices files)

/-- The three user files of the C6 scenario: A=5.0, B=2.0, C=2.0 units. -/
def abcFiles : List (List Char × List (List Char)) :=
  [("A_data.txt".toList, ["## DEVICES ##".toList, "D (100.0W) | 5.0".toList]),
   ("B_data.txt".toList, ["## DEVICES ##".toList, "D (100.0W) | 2.0".toList]),
   ("C_data.txt".toList, ["## DEVICES ##".toList, "D (100.0W) | 2.0".toList])]

section RatReducibleF

attribute [local semireducible] Rat.add Rat.mul Rat.inv Rat.sub

/-- C6: the leaderboard is sorted ascending by total usage; every entry for
the active user carries the live in-memory total (sum of `get_total_units`)
rather than the file total; and in the concrete A=5.0, B=2.0, C=2.0
scenario both B and C precede A. -/
theorem C6_theorem :
    (∀ (u : List Char) (devs : List Device)
        (files : List (List Char × List (List Char))),
      List.Sorted entryLE (show_leaderboard_data u devs files)) ∧
    (∀ (u : List Char) (devs : List Device)
        (files : List (List Char × List (List Char))) (e : LeaderboardEntry),
      e ∈ show_leaderboard_data u devs files → e.username = u →
      e.total_usage = currentUserTotal devs) ∧
    List.map LeaderboardEntry.username
        (show_leaderboard_data "Z".toList [] abcFiles) =
      ["B".toList, "C".toList, "A".toList] := by
  refine ⟨fun u devs files => List.sorted_insertionSort entryLE _, ?_, by decide⟩
  intro u devs files e he heu
  rw [show_leaderboard_data, (List.perm_insertionSort _ _).mem_iff] at he
  rcases List.mem_filterMap.mp he with ⟨f, hf, hsome⟩
  by_cases hs : dataSuffix.isSuffixOf f.1 = true
  · rw [if_pos hs] at hsome
    injection hsome with hsome
    subst hsome
    simp only at heu
    simp [heu]
  · rw [if_neg hs] at hsome
    exact absurd hsome (by simp)

/-- The single file of the C6 witness (belonging to the active user). -/
def c6WitnessFiles : List (List Char × List (List Char)) :=
  [("Z_data.txt".toList, ([] : List (List Char)))]

/-- C6 witness: in a concrete directory holding only the active user's
file, their entry appears and carries the live total. -/
theorem C6_witness :
    ((⟨"Z".toList, currentUserTotal []⟩ : LeaderboardEntry) ∈
        show_leaderboard_data "Z".toList [] c6WitnessFiles ∧
      (⟨"Z".toList, currentUserTotal []⟩ : LeaderboardEntry).username = "Z".toList) ∧
    (⟨"Z".toList, currentUserTotal []⟩ : LeaderboardEntry).total_usage =
      currentUserTotal [] :=
  ⟨⟨by decide, rfl⟩,
   C6_theorem.2.1 "Z".toList [] c6WitnessFiles _ (by decide) rfl⟩

end RatReducibleF

/-- C10 (amended): the active user appears in the leaderboard only if some
listed file ends in `_data.txt` and collapses to their username after
deleting every occurrence of `_data.txt`; when each such filename contains
`_data.txt` only as its trailing suffix (re-appending the suffix to the
derived username recovers the filename), this means exactly that a file
named `{username}_data.txt` is listed. -/
theorem C10_theorem (username : List Char) (devices : List Device)
    (files : List (List Char × List (List Char)))
    (hw : ∀ f ∈ files.map Prod.fst, dataSuffix.isSuffixOf f = true →
      username_from_file f ++ dataSuffix = f) :
    ∀ e ∈ show_leaderboard_data username devices files, e.username = username →
      (username ++ dataSuffix) ∈ files.map Prod.fst := by
  intro e he heu
  rw [show_leaderboard_data, (List.perm_insertionSort _ _).mem_iff] at he
  rcases List.mem_filterMap.mp he with ⟨f, hf, hsome⟩
  by_cases hs : dataSuffix.isSuffixOf f.1 = true
  · rw [if_pos hs] at hsome
    injection hsome with hsome
    have hfn := hw f.1 (List.mem_map_of_mem Prod.fst hf) hs
    have huser : username_from_file f.1 = username := by
      rw [← heu, ← hsome]
    rw [huser] at hfn
    exact hfn ▸ List.mem_map_of_mem Prod.fst hf
  · rw [if_neg hs] at hsome
    exact absurd hsome (by simp)

/-- The adversarial directory listing of the C10 counterexample. -/
def c10Files : List (List Char × List (List Char)) :=
  [("a_data.txtb_data.txt".toList, ([] : List (List Char)))]

section RatReducibleG

attribute [local semireducible] Rat.add Rat.mul Rat.inv Rat.sub

/-- C10 counterexample: for an active user named `ab` and a directory
holding only `a_data.txtb_data.txt`, `replace("_data.txt", "")` collapses
that filename to `ab`, so the active user appears (with their live total)
although no file named `ab_data.txt` exists. -/
theorem C10_counterexample :
    (⟨"ab".toList, currentUserTotal []⟩ : LeaderboardEntry) ∈
      show_leaderboard_data "ab".toList [] c10Files ∧
    ("ab".toList ++ dataSuffix) ∉ c10Files.map Prod.fst := by
  refine ⟨by decide, by decide⟩

/-- The well-formed directory listing of the C10 witness. -/
def c10GoodFiles : List (List Char × List (List Char)) :=
  [("u_data.txt".toList, ([] : List (List Char)))]

/-- C10 witness: with a well-formed listing, the active user's appearance
implies their own `_data.txt` file is listed. -/
theorem C10_witness :
    ((⟨"u".toList, currentUserTotal []⟩ : LeaderboardEntry) ∈
      show_leaderboard_data "u".toList [] c10GoodFiles) ∧
    ("u".toList ++ dataSuffix) ∈ c10GoodFiles.map Prod.fst :=
  ⟨by decide,
   C10_theorem "u".toList [] c10GoodFiles (by decide)
     ⟨"u".toList, currentUserTotal []⟩ (by decide) rfl⟩

end RatReducibleG
